import Mathlib

/-!
Verification of the statement-normalization core of the bills-utils
repository.  Python functions from the five source files are embedded
shallowly as executable Lean definitions; machine floats used by the
sources for bill amounts are modelled as exact rationals and pandas
missing values (NaN in an object column) as `Option`.
-/

/-! ## Generic string helpers modelling Python primitives -/

/-- The single-quote character, used by the SQL emitters. -/
def squote : Char := Char.ofNat 39

/-- Models the Python `in` test on strings: `pat` occurs as a contiguous
substring of `s`. -/
def strContains (s pat : String) : Bool := decide (pat.data <:+: s.data)

/-- Models Python `str.replace(old, new)` for a single-character pattern
`old` (the only shape the sources use: removing commas, currency signs,
newlines, and doubling quotes). -/
def replaceCharL (l : List Char) (old : Char) (new : List Char) : List Char :=
  l.flatMap (fun c => if c = old then new else [c])

/-- String version of `replaceCharL`. -/
def pyReplaceChar (s : String) (old : Char) (new : String) : String :=
  ⟨replaceCharL s.data old new.data⟩

/-- Models Python `str.strip()` on a character list: remove trailing
whitespace, then leading whitespace. -/
def pyStripL (l : List Char) : List Char :=
  (((l.reverse.dropWhile Char.isWhitespace).reverse).dropWhile Char.isWhitespace)

/-- Models Python `str.strip()`. -/
def pyStrip (s : String) : String := ⟨pyStripL s.data⟩

/-- Python compares strings lexicographically by code point; `lexLe x y`
is the Boolean `x <= y` of that order, on character lists. -/
def lexLe : List Char → List Char → Bool
  | [], _ => true
  | _ :: _, [] => false
  | a :: as, b :: bs =>
    if a.toNat < b.toNat then true
    else if b.toNat < a.toNat then false
    else lexLe as bs

/-! ## Header location (visualization/alipay_csv_visualization.py, detect_header)

`detect_header` tries a priority list of encodings; for each encoding that
decodes, it first probes row index 24 for a header keyword and otherwise
scans rows 0..49, returning the first keyword-bearing row.  Failure of all
candidates is the Python return value `(-1, None)`, modelled as `none`. -/

/-- The fixed header keyword set of `detect_header` (lines 42 and 53). -/
def header_keywords : List String :=
  ["交易时间", "交易分类", "交易对方", "收/支", "金额", "收/付款方式"]

/-- `row_text = ''.join(row)` (lines 43 and 52). -/
def rowText (row : List String) : String := String.join row

/-- `any(keyword in row_text for keyword in header_keywords)`. -/
def hasHeaderKeyword (row : List String) : Bool :=
  header_keywords.any (fun k => strContains (rowText row) k)

/-- The first loop of `detect_header` (lines 39-47): read up to row index
24 and test that row for a keyword; shorter files fail the probe. -/
def probe24 (rows : List (List String)) : Bool :=
  match rows.drop 24 with
  | [] => false
  | r :: _ => hasHeaderKeyword r

/-- The second loop of `detect_header` (lines 50-60): scan forward from
row index `i`, returning the first keyword-bearing row; after examining
the row at index 49 the scan stops. -/
def scanRows : List (List String) → ℕ → Option ℕ
  | [], _ => none
  | r :: rest, i =>
    if hasHeaderKeyword r then some i
    else if 49 ≤ i then none
    else scanRows rest (i + 1)

/-- The per-encoding body of `detect_header`: probe index 24, then scan
from row 0. -/
def findHeaderRows (rows : List (List String)) : Option ℕ :=
  if probe24 rows then some 24 else scanRows rows 0

/-- The priority-ordered candidate encodings (line 31). -/
def encodings_to_try : List String :=
  ["utf-8", "gbk", "gb2312", "utf-8-sig", "latin-1"]

/-- Decoding outcome plus header location for one candidate encoding.
The byte buffer is abstracted as a map `d` from encoding name to the
decoded row list (`none` when decoding raises UnicodeDecodeError). -/
def tryEncoding (d : String → Option (List (List String))) (e : String) : Option ℕ :=
  (d e).bind findHeaderRows

/-- The candidate loop of `detect_header` (lines 33-71): the first
encoding that decodes and locates a header wins; exhaustion returns
`none`, the Python `(-1, None)`. -/
def detect_header (d : String → Option (List (List String))) :
    List String → Option (ℕ × String)
  | [] => none
  | e :: rest =>
    match d e with
    | none => detect_header d rest
    | some rows =>
      match findHeaderRows rows with
      | some i => some (i, e)
      | none => detect_header d rest

/-! ## Amount buckets (alipay_csv_visualization.py lines 252-254,
wx_excel_visualization.py lines 104-106)

`pd.cut(x, bins=[0, 50, 100, 300, 1000, inf], labels=...)` uses the
pandas default `right=True`: value `v` is assigned to the half-open
interval `(bins[i], bins[i+1]]`; values outside every interval (here
`v <= 0`) become NaN, modelled as `none`. -/

/-- The five bucket labels (line 253). -/
def amount_labels : List String := ["0-50", "50-100", "100-300", "300-1000", "1000+"]

/-- The finite bin boundaries (line 252); the final edge is `inf`. -/
def amount_bins : List ℚ := [0, 50, 100, 300, 1000]

/-- Interval index assigned by `pd.cut` with the default right-closed
intervals. -/
def pdCutIdx (v : ℚ) : Option ℕ :=
  if 0 < v ∧ v ≤ 50 then some 0
  else if 50 < v ∧ v ≤ 100 then some 1
  else if 100 < v ∧ v ≤ 300 then some 2
  else if 300 < v ∧ v ≤ 1000 then some 3
  else if 1000 < v then some 4
  else none

/-- The bucket label `pd.cut` assigns to an amount, `none` for NaN. -/
def amountBucket (v : ℚ) : Option String :=
  (pdCutIdx v).bind (fun i => amount_labels[i]?)

/-- Membership of `v` in bucket `i` as cut by the code: lower boundary
strict, upper boundary inclusive, last bucket unbounded above. -/
def cutMem (i : ℕ) (v : ℚ) : Prop :=
  i < 5 ∧ amount_bins.getD i 0 < v ∧ (i + 1 < 5 → v ≤ amount_bins.getD (i + 1) 0)

instance (i : ℕ) (v : ℚ) : Decidable (cutMem i v) := by
  unfold cutMem; infer_instance

/-! ## Time-of-day buckets (alipay_csv_visualization.py lines 239-249,
wx_excel_visualization.py lines 91-101) -/

/-- `get_time_period(hour)`: the four fixed period labels. -/
def get_time_period (hour : ℤ) : String :=
  if 0 ≤ hour ∧ hour < 6 then "凌晨(0-6am)"
  else if 6 ≤ hour ∧ hour < 12 then "上午(6-12am)"
  else if 12 ≤ hour ∧ hour < 18 then "下午(12-18pm)"
  else "晚上(18-0am)"

/-- The four period labels in order. -/
def period_labels : List String :=
  ["凌晨(0-6am)", "上午(6-12am)", "下午(12-18pm)", "晚上(18-0am)"]

/-- The lower boundaries of the four periods. -/
def period_lo : List ℤ := [0, 6, 12, 18]

/-- The upper boundaries of the four periods. -/
def period_hi : List ℤ := [6, 12, 18, 24]

/-- Membership of hour `h` in period `i` of the spec partition. -/
def periodMem (i : Fin 4) (h : ℤ) : Prop :=
  period_lo.getD i 0 ≤ h ∧ h < period_hi.getD i 0

instance (i : Fin 4) (h : ℤ) : Decidable (periodMem i h) := by
  unfold periodMem; infer_instance

/-! ## Long-tail rollup (alipay_csv_visualization.py lines 303-321 and
341-350 and 367-376, wx_excel_visualization.py lines 155-173)

The grouping (`value_counts` output) is a list of label/weight pairs.
Groups whose percentage of the total is at least the threshold are kept;
the weights of the rest are summed and, when positive, stored into the
series under the label 其他 — a pandas indexed assignment, which
overwrites an existing entry with that label and appends otherwise. -/

/-- Pandas `series[k] = v`: overwrite the entry with label `k` when
present, append it otherwise. -/
def seriesSet (l : List (String × ℚ)) (k : String) (v : ℚ) : List (String × ℚ) :=
  if l.any (fun p => p.1 = k) then
    l.map (fun p => if p.1 = k then (p.1, v) else p)
  else l ++ [(k, v)]

/-- Total weight of a grouping. -/
def totalWeight (groups : List (String × ℚ)) : ℚ := (groups.map Prod.snd).sum

/-- The below-threshold mass summed into 其他 (`other_count`). -/
def excludedMass (groups : List (String × ℚ)) (threshold : ℚ) : ℚ :=
  ((groups.filter (fun g => g.2 / totalWeight groups * 100 < threshold)).map Prod.snd).sum

/-- The long-tail rollup: `significant` groups kept, `other` stored
when strictly positive. -/
def rollup (groups : List (String × ℚ)) (threshold : ℚ) : List (String × ℚ) :=
  let significant := groups.filter (fun g => threshold ≤ g.2 / totalWeight groups * 100)
  let other := excludedMass groups threshold
  if 0 < other then seriesSet significant "其他" other else significant

/-! ## Record normalization, SQL scripts (sql/alipay_bills_to_sql.py
lines 62-72, sql/wx_bills_to_sql.py lines 44-62)

Cells read by pandas are `Option String`: `none` is NaN (an empty CSV
field).  `astype(str)` renders NaN as the literal string `"nan"`.
`pd.to_numeric(..., errors="coerce")` is modelled as a decimal parser
returning `none` for every NaN outcome — both unparsable text and the
literal `"nan"` — since the subsequent `dropna` removes exactly those.
(Exponent notation and infinities, accepted by pandas, are not modelled;
no claim involves them.) -/

/-- `pd.read_csv` cell conversion: an empty field becomes NaN. -/
def readCell (s : String) : Option String := if s = "" then none else some s

/-- `.astype(str)` on one cell: NaN prints as `"nan"`. -/
def astypeStr : Option String → String
  | none => "nan"
  | some s => s

/-- Numeric value of a digit string. -/
def natOfDigits (l : List Char) : ℕ :=
  l.foldl (fun a c => 10 * a + (c.toNat - 48)) 0

/-- Unsigned decimal parse: digits, optionally split by one dot. -/
def parseUnsigned (u : List Char) : Option ℚ :=
  let ip := u.takeWhile (fun c => c ≠ '.')
  match u.dropWhile (fun c => c ≠ '.') with
  | [] =>
    if !ip.isEmpty && ip.all Char.isDigit then some (natOfDigits ip) else none
  | _ :: fp =>
    if !(ip.isEmpty && fp.isEmpty) && ip.all Char.isDigit && fp.all Char.isDigit then
      some ((natOfDigits ip : ℚ) + (natOfDigits fp : ℚ) / 10 ^ fp.length)
    else none

/-- `pd.to_numeric(s, errors="coerce")` on one string cell, with NaN as
`none`: surrounding whitespace tolerated, optional sign, decimal digits. -/
def parseDecimal (s : String) : Option ℚ :=
  match pyStripL s.data with
  | '+' :: r => parseUnsigned r
  | '-' :: r => (parseUnsigned r).map (fun q => -q)
  | t => parseUnsigned t

/-- Alipay id cleaning (line 63): `astype(str).str.strip()`. -/
def alipayCleanId (v : Option String) : String := pyStrip (astypeStr v)

/-- Alipay amount cleaning (lines 67-69): drop commas, then coerce. -/
def alipayAmount (v : Option String) : Option ℚ :=
  parseDecimal (pyReplaceChar (astypeStr v) ',' "")

/-- Lines 62-72 of `process_alipay_csv` on the mandatory columns of one
file: clean ids and amounts, then `dropna` on both columns.  After
`astype(str)` the id column holds strings and can no longer be NaN, so
only a NaN amount removes a row.  The retained records are returned with
the dropped-row count (rows read minus rows kept). -/
def alipayNormalize (rows : List (String × String)) : List (String × ℚ) × ℕ :=
  let processed := rows.map (fun r => (alipayCleanId (readCell r.1), alipayAmount (readCell r.2)))
  let retained := processed.filterMap (fun p => p.2.map (fun q => (p.1, q)))
  (retained, rows.length - retained.length)

/-- WeChat amount cleaning (lines 48-57 of `process_file`):
`astype(str)`, strip `¥`, strip commas, strip whitespace, coerce. -/
def wxAmount (v : Option String) : Option ℚ :=
  parseDecimal (pyStrip (pyReplaceChar (pyReplaceChar (astypeStr v) '¥' "") ',' ""))

/-- `clean(val)` of `run_batch` in alipay_bills_to_sql.py (lines 93-97):
NaN to empty, double each single quote, strip. -/
def cleanSql (v : Option String) : String :=
  match v with
  | none => ""
  | some s => pyStrip (pyReplaceChar s squote "''")

/-- One emitted literal of the generated INSERT statement. -/
inductive SqlLit where
  | quoted : String → SqlLit
  | numeric : ℚ → SqlLit
deriving DecidableEq

/-- A normalized alipay record as consumed by `run_batch`. -/
structure AlipayRecord where
  transaction_time : Option String
  category : Option String
  counterparty : Option String
  counterparty_account : Option String
  product_name : Option String
  direction : Option String
  amount : ℚ
  payment_method : Option String
  status : Option String
  transaction_id : Option String
  merchant_id : Option String
  remark : Option String

/-- The VALUES tuple of the INSERT statement built at lines 99-107:
eleven quoted text literals around the bare numeric amount. -/
def emitAlipayValues (r : AlipayRecord) : List SqlLit :=
  [ .quoted (cleanSql r.transaction_time), .quoted (cleanSql r.category),
    .quoted (cleanSql r.counterparty), .quoted (cleanSql r.counterparty_account),
    .quoted (cleanSql r.product_name), .quoted (cleanSql r.direction),
    .numeric r.amount, .quoted (cleanSql r.payment_method),
    .quoted (cleanSql r.status), .quoted (cleanSql r.transaction_id),
    .quoted (cleanSql r.merchant_id), .quoted (cleanSql r.remark) ]

/-! ## PDF conversion (conversion/wx_conversion.py, convert_pdf)

Extracted table cells may be None; rows with fewer than 2 cells are
discarded while flattening, cells are cleaned (lines 47-53), the header
is row index 2 of the flattened sequence, data rows follow and are sorted
by the raw time string at cell index 1 (line 64) — Python `list.sort`, a
stable ascending sort. -/

/-- Cell cleaning of lines 50-52: in the time cell (index 1) newlines
first become spaces, then every cell has remaining newlines removed and
None becomes the empty string. -/
def convCleanCell (i : ℕ) (c : Option String) : String :=
  match c with
  | none => ""
  | some s =>
    if i = 1 then pyReplaceChar (pyReplaceChar s '\n' " ") '\n' ""
    else pyReplaceChar s '\n' ""

/-- Clean one extracted row cell by cell. -/
def convCleanRow (row : List (Option String)) : List String :=
  row.mapIdx (fun i c => convCleanCell i c)

/-- Lines 42-53: flatten all tables of all pages into one row sequence,
keeping only rows with more than one cell, cleaned. -/
def flattenRows (pages : List (List (List (List (Option String))))) : List (List String) :=
  pages.flatMap (fun tables => tables.flatMap (fun table =>
    (table.filter (fun row => 1 < row.length)).map convCleanRow))

/-- The sort key of line 64: `lambda ele: ele[1]`. -/
def keyCell (r : List String) : String := r.getD 1 ""

/-- The row comparison induced by the sort key: Python string `<=` on
the raw cell at index 1. -/
def rowLe (a b : List String) : Bool := lexLe (keyCell a).data (keyCell b).data

/-- Line 64: `data_rows.sort(key=lambda ele: ele[1])` — a stable
ascending sort under code-point string comparison. -/
def sortRows (rows : List (List String)) : List (List String) :=
  rows.mergeSort rowLe

/-- The data-shaping core of `convert_pdf` (lines 42-64): flatten, reject
the file when fewer than 4 rows survive (line 55 returns None), else
header is row 2 and the sorted remainder is the data. -/
def convertCore (pages : List (List (List (List (Option String))))) :
    Option (List String × List (List String)) :=
  let total := flattenRows pages
  if total.length < 4 then none
  else some (total.getD 2 [], sortRows (total.drop 3))

/-! ## Theorems -/

/-! ### Order properties of the Python string comparison -/

theorem lexLe_total : ∀ x y : List Char, lexLe x y || lexLe y x
  | [], y => by simp [lexLe]
  | a :: as, [] => by simp [lexLe]
  | a :: as, b :: bs => by
    by_cases hab : a.toNat < b.toNat
    · simp [lexLe, hab]
    · by_cases hba : b.toNat < a.toNat
      · simp [lexLe, hab, hba]
      · simpa [lexLe, hab, hba] using lexLe_total as bs

theorem lexLe_trans : ∀ x y z : List Char,
    lexLe x y = true → lexLe y z = true → lexLe x z = true
  | [], _, z, _, _ => by simp [lexLe]
  | a :: as, [], _, hxy, _ => by simp [lexLe] at hxy
  | a :: as, b :: bs, [], _, hyz => by simp [lexLe] at hyz
  | a :: as, b :: bs, c :: cs, hxy, hyz => by
    by_cases hab : a.toNat < b.toNat
    · by_cases hbc : b.toNat < c.toNat
      · simp [lexLe, Nat.lt_trans hab hbc]
      · by_cases hcb : c.toNat < b.toNat
        · simp [lexLe, hbc, hcb] at hyz
        · have : a.toNat < c.toNat := by omega
          simp [lexLe, this]
    · by_cases hba : b.toNat < a.toNat
      · simp [lexLe, hab, hba] at hxy
      · have hab' : a.toNat = b.toNat := by omega
        by_cases hbc : b.toNat < c.toNat
        · simp [lexLe, hab' ▸ hbc]
        · by_cases hcb : c.toNat < b.toNat
          · simp [lexLe, hbc, hcb] at hyz
          · have h1 : ¬ a.toNat < c.toNat := by omega
            have h2 : ¬ c.toNat < a.toNat := by omega
            simp only [lexLe, hab, hba, if_neg hab, if_neg hba] at hxy
            simp only [lexLe, if_neg hbc, if_neg hcb] at hyz
            simp only [lexLe, if_neg h1, if_neg h2]
            exact lexLe_trans as bs cs hxy hyz

theorem rowLe_trans (a b c : List String) :
    rowLe a b = true → rowLe b c = true → rowLe a c = true :=
  lexLe_trans _ _ _

theorem rowLe_total (a b : List String) : rowLe a b || rowLe b a :=
  lexLe_total _ _

/-! ### C6: ordering contract of the PDF-conversion data rows -/

/-- C6: the retained data rows of the fixed-offset (PDF) source are
sorted ascending by the raw transaction-time string at cell index 1
under code-point comparison, the sort permutes the input, it is stable
(a pair already in key order keeps its relative order), and the concrete
scenario "2024-02-01", "2024-01-15", "2024-01-15" sorts to
"2024-01-15", "2024-01-15", "2024-02-01" with the duplicate keys in
original order. -/
theorem C6_lexicographic_stable_sort (rows : List (List String)) (a b : List String) :
    (sortRows rows).Perm rows ∧
    (sortRows rows).Pairwise (fun x y => rowLe x y = true) ∧
    (List.Sublist [a, b] rows → rowLe a b = true → List.Sublist [a, b] (sortRows rows)) ∧
    sortRows [["a", "2024-02-01"], ["b", "2024-01-15"], ["c", "2024-01-15"]] =
      [["b", "2024-01-15"], ["c", "2024-01-15"], ["a", "2024-02-01"]] := by
  refine ⟨List.mergeSort_perm rows rowLe,
    List.sorted_mergeSort (fun x y z => rowLe_trans x y z) rowLe_total rows,
    fun hsub hle => List.pair_sublist_mergeSort
      (fun x y z => rowLe_trans x y z) rowLe_total hle hsub, ?_⟩
  simp +decide [sortRows, List.mergeSort, List.splitInTwo, List.splitAt, List.splitAt.go]

/-- Witness for C6 at concrete input: the stability conjunct applied to
the duplicate-key pair of the scenario. -/
theorem C6_lexicographic_stable_sort_witness :
    List.Sublist [["b", "2024-01-15"], ["c", "2024-01-15"]]
      (sortRows [["a", "2024-02-01"], ["b", "2024-01-15"], ["c", "2024-01-15"]]) :=
  (C6_lexicographic_stable_sort
      [["a", "2024-02-01"], ["b", "2024-01-15"], ["c", "2024-01-15"]]
      ["b", "2024-01-15"] ["c", "2024-01-15"]).2.2.1 (by decide) (by decide)

/-! ### C8: time-of-day bucket totality -/

/-- C8: for every integer hour 0 ≤ h ≤ 23 exactly one of the four period
labels is produced, following the partition [0,6), [6,12), [12,18),
[18,24). -/
theorem C8_time_period_totality (h : ℤ) (h0 : 0 ≤ h) (h24 : h < 24) :
    ∃ i : Fin 4, (periodMem i h ∧ get_time_period h = period_labels.getD i.val "") ∧
      ∀ j : Fin 4, periodMem j h → j = i := by
  interval_cases h <;> decide

/-- Witness for C8 at hour 13. -/
theorem C8_time_period_totality_witness :
    ∃ i : Fin 4, (periodMem i 13 ∧ get_time_period 13 = period_labels.getD i.val "") ∧
      ∀ j : Fin 4, periodMem j 13 → j = i :=
  C8_time_period_totality 13 (by decide) (by decide)

/-! ### C10: the PDF conversion requires at least one data row -/

/-- C10: `convert_pdf` fails (returns None) exactly when the flattened
row sequence, after discarding rows with fewer than 2 cells, has fewer
than 4 rows; in particular a table holding only the fixed header at
index 2 and nothing after it is rejected as a whole-file failure. -/
theorem C10_minimum_row_count (pages : List (List (List (List (Option String))))) :
    convertCore pages = none ↔ (flattenRows pages).length < 4 := by
  simp only [convertCore]
  split_ifs with h <;> simp [h]

/-! ### C1: amount bucketing -/

theorem cutMem_of_pdCutIdx (v : ℚ) (i : ℕ) (h : pdCutIdx v = some i) : cutMem i v := by
  unfold pdCutIdx at h
  split_ifs at h with h1 h2 h3 h4 h5
  · cases h
    exact ⟨by norm_num, by simpa [amount_bins] using h1.1,
      fun _ => by simpa [amount_bins] using h1.2⟩
  · cases h
    exact ⟨by norm_num, by simpa [amount_bins] using h2.1,
      fun _ => by simpa [amount_bins] using h2.2⟩
  · cases h
    exact ⟨by norm_num, by simpa [amount_bins] using h3.1,
      fun _ => by simpa [amount_bins] using h3.2⟩
  · cases h
    exact ⟨by norm_num, by simpa [amount_bins] using h4.1,
      fun _ => by simpa [amount_bins] using h4.2⟩
  · cases h
    exact ⟨by norm_num, by simpa [amount_bins] using h5,
      fun hcon => absurd hcon (by norm_num)⟩

theorem pdCutIdx_of_cutMem (v : ℚ) (i : ℕ) (h : cutMem i v) : pdCutIdx v = some i := by
  obtain ⟨h5, hlo, hhi⟩ := h
  interval_cases i
  · have hu : v ≤ 50 := by simpa [amount_bins] using hhi (by norm_num)
    have hl : 0 < v := by simpa [amount_bins] using hlo
    unfold pdCutIdx
    rw [if_pos ⟨hl, hu⟩]
  · have hu : v ≤ 100 := by simpa [amount_bins] using hhi (by norm_num)
    have hl : (50 : ℚ) < v := by simpa [amount_bins] using hlo
    unfold pdCutIdx
    rw [if_neg (by intro hc; linarith [hc.2]), if_pos ⟨hl, hu⟩]
  · have hu : v ≤ 300 := by simpa [amount_bins] using hhi (by norm_num)
    have hl : (100 : ℚ) < v := by simpa [amount_bins] using hlo
    unfold pdCutIdx
    rw [if_neg (by intro hc; linarith [hc.2]), if_neg (by intro hc; linarith [hc.2]),
      if_pos ⟨hl, hu⟩]
  · have hu : v ≤ 1000 := by simpa [amount_bins] using hhi (by norm_num)
    have hl : (300 : ℚ) < v := by simpa [amount_bins] using hlo
    unfold pdCutIdx
    rw [if_neg (by intro hc; linarith [hc.2]), if_neg (by intro hc; linarith [hc.2]),
      if_neg (by intro hc; linarith [hc.2]), if_pos ⟨hl, hu⟩]
  · have hl : (1000 : ℚ) < v := by simpa [amount_bins] using hlo
    unfold pdCutIdx
    rw [if_neg (by intro hc; linarith [hc.2]), if_neg (by intro hc; linarith [hc.2]),
      if_neg (by intro hc; linarith [hc.2]), if_neg (by intro hc; linarith [hc.2]),
      if_pos hl]

theorem pdCutIdx_isSome (v : ℚ) (hv : 0 < v) : ∃ i, pdCutIdx v = some i := by
  unfold pdCutIdx
  split_ifs with h1 h2 h3 h4 h5
  · exact ⟨0, rfl⟩
  · exact ⟨1, rfl⟩
  · exact ⟨2, rfl⟩
  · exact ⟨3, rfl⟩
  · exact ⟨4, rfl⟩
  · push_neg at h1 h2 h3 h4
    exact absurd (h4 (h3 (h2 (h1 hv)))) h5

/-- C1 counterexample to the claim as stated: with the default
boundaries the code (pd.cut with right-closed intervals) sends 0 to no
bucket at all, and sends the boundary value 50 to "0-50", not to
"50-100" as the half-open reading of the claim demands. -/
theorem C1_boundary_counterexample :
    amountBucket 0 = none ∧
    amountBucket 50 = some "0-50" ∧ "0-50" ≠ "50-100" := by
  refine ⟨?_, ?_, by decide⟩ <;>
    norm_num [amountBucket, pdCutIdx, amount_labels]

/-- C1 amended: with the default boundaries 0, 50, 100, 300, 1000, ∞,
every strictly positive value v lies in exactly one bucket, namely the
unique index i with b_i < v ≤ b_{i+1} (intervals left-open and
right-closed, the last bucket unbounded above), and the code returns the
label of that bucket; the buckets partition (0, ∞), while v = 0 falls in
no bucket. -/
theorem C1_bucket_partition (v : ℚ) (hv : 0 < v) :
    ∃ i : ℕ, cutMem i v ∧ (∀ j : ℕ, cutMem j v → j = i) ∧
      amountBucket v = amount_labels[i]? := by
  obtain ⟨i, hi⟩ := pdCutIdx_isSome v hv
  refine ⟨i, cutMem_of_pdCutIdx v i hi, ?_, by simp [amountBucket, hi]⟩
  intro j hj
  have hj' := pdCutIdx_of_cutMem v j hj
  rw [hi] at hj'
  exact (Option.some.inj hj').symm

/-- Witness for C1 at v = 75: the second bucket. -/
theorem C1_bucket_partition_witness :
    ∃ i : ℕ, cutMem i 75 ∧ (∀ j : ℕ, cutMem j 75 → j = i) ∧
      amountBucket 75 = amount_labels[i]? :=
  C1_bucket_partition 75 (by norm_num)

/-! ### C2: long-tail rollup conservation -/

theorem sum_filter_split (l : List (String × ℚ)) (p : String × ℚ → Bool) :
    ((l.filter p).map Prod.snd).sum + ((l.filter (fun g => !p g)).map Prod.snd).sum =
      (l.map Prod.snd).sum := by
  induction l with
  | nil => simp
  | cons a rest ih =>
    cases hp : p a <;> simp [List.filter_cons, hp, ← ih] <;> ring

theorem rollup_eq_append (groups : List (String × ℚ)) (threshold : ℚ)
    (hlab : "其他" ∉ groups.map Prod.fst)
    (h : 0 < excludedMass groups threshold) :
    rollup groups threshold =
      groups.filter (fun g => threshold ≤ g.2 / totalWeight groups * 100) ++
        [("其他", excludedMass groups threshold)] := by
  have hany : (groups.filter
      (fun g => threshold ≤ g.2 / totalWeight groups * 100)).any
        (fun p => p.1 = "其他") = false := by
    rw [List.any_eq_false]
    intro x hx
    have hxg : x ∈ groups := List.mem_of_mem_filter hx
    have : x.1 ≠ "其他" := by
      intro hc
      exact hlab (hc ▸ List.mem_map_of_mem Prod.fst hxg)
    simpa using this
  simp only [rollup, if_pos h, seriesSet, hany]
  simp

/-- C2 counterexample to the claim as stated: when an above-threshold
group is itself labelled 其他 ("other"), the pandas indexed assignment
`pie_data["其他"] = other_count` overwrites that group instead of adding
a new entry, so the displayed weights sum to 2 while the input weights
sum to 100, and mass is not conserved. -/
theorem C2_rollup_counterexample :
    ((rollup [("其他", 98), ("A", 1), ("B", 1)] 3).map Prod.snd).sum = 2 ∧
    (([("其他", (98 : ℚ)), ("A", 1), ("B", 1)].map Prod.snd).sum = 100) ∧
    (2 : ℚ) ≠ 100 := by
  refine ⟨?_, by norm_num, by norm_num⟩
  norm_num [rollup, excludedMass, totalWeight, seriesSet, List.filter, List.any]

/-- C2 amended: for every grouping in which no input group carries the
reserved label 其他 and all weights are positive (as holds for every
`value_counts` grouping the code performs), the rollup conserves mass —
the displayed weights, including the synthetic 其他 entry when present,
sum to the input total — and the 其他 entry is present iff the total
weight of the below-threshold groups is strictly positive. -/
theorem C2_rollup_conservation (groups : List (String × ℚ)) (threshold : ℚ)
    (hlab : "其他" ∉ groups.map Prod.fst)
    (hpos : ∀ g ∈ groups, 0 < g.2) :
    ((rollup groups threshold).map Prod.snd).sum = totalWeight groups ∧
    ("其他" ∈ (rollup groups threshold).map Prod.fst ↔
      0 < excludedMass groups threshold) := by
  have hcomp : ∀ g : String × ℚ,
      (decide (g.2 / totalWeight groups * 100 < threshold)) =
        !(decide (threshold ≤ g.2 / totalWeight groups * 100)) := by
    intro g
    by_cases h : threshold ≤ g.2 / totalWeight groups * 100
    · simp [h, not_lt.mpr h]
    · simp [h, not_le.mp h]
  have hsplit :
      ((groups.filter (fun g => threshold ≤ g.2 / totalWeight groups * 100)).map
        Prod.snd).sum + excludedMass groups threshold = totalWeight groups := by
    have := sum_filter_split groups
      (fun g => decide (threshold ≤ g.2 / totalWeight groups * 100))
    calc ((groups.filter (fun g => threshold ≤ g.2 / totalWeight groups * 100)).map
            Prod.snd).sum + excludedMass groups threshold
        = ((groups.filter (fun g => threshold ≤ g.2 / totalWeight groups * 100)).map
            Prod.snd).sum +
          ((groups.filter (fun g =>
            !(decide (threshold ≤ g.2 / totalWeight groups * 100)))).map
              Prod.snd).sum := by
          unfold excludedMass
          rw [List.filter_congr (fun g _ => hcomp g)]
      _ = totalWeight groups := this
  by_cases h : 0 < excludedMass groups threshold
  · rw [rollup_eq_append groups threshold hlab h]
    constructor
    · simpa using hsplit
    · simp [h]
  · have hexc0 : excludedMass groups threshold = 0 := by
      have hnonneg : 0 ≤ excludedMass groups threshold := by
        apply List.sum_nonneg
        intro x hx
        simp only [List.mem_map] at hx
        obtain ⟨g, hg, rfl⟩ := hx
        exact le_of_lt (hpos g (List.mem_of_mem_filter hg))
      linarith [not_lt.mp h]
    have hroll : rollup groups threshold =
        groups.filter (fun g => threshold ≤ g.2 / totalWeight groups * 100) := by
      simp only [rollup, if_neg h]
    constructor
    · rw [hroll]
      have := hsplit
      rw [hexc0] at this
      simpa using this
    · rw [hroll]
      constructor
      · intro hmem
        exfalso
        simp only [List.mem_map] at hmem
        obtain ⟨g, hg, hfst⟩ := hmem
        exact hlab (hfst ▸ List.mem_map_of_mem Prod.fst (List.mem_of_mem_filter hg))
      · intro hc
        exact absurd hc h

/-- Witness for C2: a grouping with labels A and B at threshold 3, where
both groups are kept and no 其他 entry appears. -/
theorem C2_rollup_conservation_witness :
    ((rollup [("A", 97), ("B", 3)] 3).map Prod.snd).sum =
      totalWeight [("A", 97), ("B", 3)] ∧
    ("其他" ∈ (rollup [("A", 97), ("B", 3)] 3).map Prod.fst ↔
      0 < excludedMass [("A", 97), ("B", 3)] 3) :=
  C2_rollup_conservation [("A", 97), ("B", 3)] 3 (by decide)
    (by
      intro g hg
      simp only [List.mem_cons, List.not_mem_nil, or_false] at hg
      rcases hg with rfl | rfl <;> norm_num)

/-! ### C5: the probe-then-scan header locator -/

theorem scanRows_found : ∀ (rows : List (List String)) (i k : ℕ),
    k < rows.length → i + k ≤ 49 →
    hasHeaderKeyword (rows.getD k []) = true →
    (∀ j, j < k → hasHeaderKeyword (rows.getD j []) = false) →
    scanRows rows i = some (i + k)
  | [], _, k, hk, _, _, _ => by simp at hk
  | r :: rest, i, 0, _, _, hkw, _ => by
    simp only [List.getD_cons_zero] at hkw
    simp [scanRows, hkw]
  | r :: rest, i, k + 1, hk, hik, hkw, hpre => by
    have h0 : hasHeaderKeyword r = false := by simpa using hpre 0 (Nat.succ_pos k)
    have h49 : ¬ 49 ≤ i := by omega
    have hrec := scanRows_found rest (i + 1) k (by simpa using hk) (by omega)
      (by simpa using hkw)
      (fun j hj => by simpa using hpre (j + 1) (by omega))
    simp only [scanRows, h0, Bool.false_eq_true, if_false, if_neg h49, hrec]
    congr 1
    omega

theorem scanRows_missing : ∀ (rows : List (List String)) (i : ℕ), i ≤ 49 →
    (∀ j, j < rows.length → i + j ≤ 49 → hasHeaderKeyword (rows.getD j []) = false) →
    scanRows rows i = none
  | [], _, _, _ => rfl
  | r :: rest, i, hi, hall => by
    have h0 : hasHeaderKeyword r = false := by simpa using hall 0 (by simp) (by omega)
    by_cases h49 : 49 ≤ i
    · simp [scanRows, h0, h49]
    · have hrec := scanRows_missing rest (i + 1) (by omega)
        (fun j hj hij => by simpa using hall (j + 1) (by simpa using Nat.succ_lt_succ hj) (by omega))
      simp [scanRows, h0, h49, hrec]

theorem probe24_iff (rows : List (List String)) :
    probe24 rows = true ↔
      24 < rows.length ∧ hasHeaderKeyword (rows.getD 24 []) = true := by
  unfold probe24
  by_cases hlen : 24 < rows.length
  · rw [List.drop_eq_getElem_cons hlen]
    have hget : rows.getD 24 [] = rows[24] := by
      simp [List.getD_eq_getElem?_getD, List.getElem?_eq_getElem hlen]
    simp [hget, hlen]
  · have hnil : rows.drop 24 = [] := by rw [List.drop_eq_nil_iff]; omega
    rw [hnil]
    simp [hlen]

/-- C5: the probe-then-scan Header Locator first checks row index 24 and
returns 24 when that row bears a keyword; otherwise it returns the first
keyword-bearing row index among rows 0..49; when the sole keyword row
sits at index k ∈ {0, 10, 24, 49} it returns k, and when no row within
the 50-row bound bears a keyword it fails (returns none, the per-encoding
MissingHeader outcome). -/
theorem C5_probe_then_scan :
    (∀ (rows : List (List String)) (k : ℕ), k < rows.length →
      hasHeaderKeyword (rows.getD k []) = true →
      (∀ j, j < rows.length → hasHeaderKeyword (rows.getD j []) = true → j = k) →
      (k = 0 ∨ k = 10 ∨ k = 24 ∨ k = 49) →
      findHeaderRows rows = some k) ∧
    (∀ rows : List (List String),
      (∀ j, j < rows.length → j ≤ 49 → hasHeaderKeyword (rows.getD j []) = false) →
      findHeaderRows rows = none) := by
  constructor
  · intro rows k hk hkw huniq hmem
    by_cases h24 : k = 24
    · subst h24
      rw [findHeaderRows, if_pos ((probe24_iff rows).mpr ⟨hk, hkw⟩)]
    · have hp : probe24 rows = false := by
        cases hpb : probe24 rows with
        | false => rfl
        | true =>
          obtain ⟨hlen, hkw24⟩ := (probe24_iff rows).mp hpb
          exact absurd (huniq 24 hlen hkw24).symm h24
      rw [findHeaderRows, if_neg (by simp [hp])]
      have hpre : ∀ j, j < k → hasHeaderKeyword (rows.getD j []) = false := by
        intro j hj
        cases hb : hasHeaderKeyword (rows.getD j []) with
        | false => rfl
        | true => exact absurd (huniq j (lt_trans hj hk) hb) (Nat.ne_of_lt hj)
      have hk49 : 0 + k ≤ 49 := by omega
      simpa using scanRows_found rows 0 k hk hk49 hkw hpre
  · intro rows hall
    have hp : probe24 rows = false := by
      cases hpb : probe24 rows with
      | false => rfl
      | true =>
        obtain ⟨hlen, hkw24⟩ := (probe24_iff rows).mp hpb
        rw [hall 24 hlen (by omega)] at hkw24
        cases hkw24
    rw [findHeaderRows, if_neg (by simp [hp])]
    exact scanRows_missing rows 0 (by omega) (fun j hj hij => hall j hj (by omega))

/-- Witness for C5: a file whose sole keyword row is at index 10 locates
the header there, and a keyword-free file fails. -/
theorem C5_probe_then_scan_witness :
    findHeaderRows (List.replicate 10 ["x"] ++ [["交易时间"]]) = some 10 ∧
    findHeaderRows [["x"]] = none := by
  constructor
  · apply C5_probe_then_scan.1 (List.replicate 10 ["x"] ++ [["交易时间"]]) 10
    · decide
    · decide
    · intro j hj hkw
      revert hkw
      have hl : (List.replicate 10 ["x"] ++ [["交易时间"]]).length = 11 := by decide
      rw [hl] at hj
      interval_cases j <;> decide
    · tauto
  · apply C5_probe_then_scan.2 [["x"]]
    intro j hj hle
    have hl : ([["x"]] : List (List String)).length = 1 := by decide
    rw [hl] at hj
    interval_cases j
    decide

/-! ### C4: the encoding prober -/

theorem detect_header_none_iff (d : String → Option (List (List String))) :
    ∀ cands, detect_header d cands = none ↔ ∀ e ∈ cands, tryEncoding d e = none := by
  intro cands
  induction cands with
  | nil => simp [detect_header]
  | cons e0 rest ih =>
    simp only [detect_header]
    cases hde : d e0 with
    | none => simp [List.forall_mem_cons, tryEncoding, hde, ih]
    | some rows =>
      cases hf : findHeaderRows rows with
      | some i => simp [List.forall_mem_cons, tryEncoding, hde, hf]
      | none => simp [List.forall_mem_cons, tryEncoding, hde, hf, ih]

theorem detect_header_some_spec (d : String → Option (List (List String))) :
    ∀ cands i e, detect_header d cands = some (i, e) →
      ∃ pre suf, cands = pre ++ e :: suf ∧
        (∀ e' ∈ pre, tryEncoding d e' = none) ∧ tryEncoding d e = some i := by
  intro cands
  induction cands with
  | nil => intro i e h; simp [detect_header] at h
  | cons e0 rest ih =>
    intro i e h
    simp only [detect_header] at h
    split at h
    · rename_i hde
      obtain ⟨pre, suf, hc, hpre, htry⟩ := ih i e h
      refine ⟨e0 :: pre, suf, by rw [hc]; rfl, ?_, htry⟩
      intro e' he'
      rcases List.mem_cons.mp he' with rfl | he'
      · simp [tryEncoding, hde]
      · exact hpre e' he'
    · rename_i rows hde
      split at h
      · rename_i j hf
        simp only [Option.some.injEq, Prod.mk.injEq] at h
        obtain ⟨rfl, rfl⟩ := h
        exact ⟨[], rest, rfl, by simp, by simp [tryEncoding, hde, hf]⟩
      · rename_i hf
        obtain ⟨pre, suf, hc, hpre, htry⟩ := ih i e h
        refine ⟨e0 :: pre, suf, by rw [hc]; rfl, ?_, htry⟩
        intro e' he'
        rcases List.mem_cons.mp he' with rfl | he'
        · simp [tryEncoding, hde, hf]
        · exact hpre e' he'

/-- C4: over the fixed candidate list, the prober fails (the Python
`(-1, None)`, here `none`) iff no candidate both decodes and locates a
header; and a success returns the location together with the
earliest-listed candidate that succeeds — every candidate listed before
it either fails to decode or fails to locate a header. -/
theorem C4_encoding_priority (d : String → Option (List (List String))) :
    (detect_header d encodings_to_try = none ↔
      ∀ e ∈ encodings_to_try, tryEncoding d e = none) ∧
    (∀ i e, detect_header d encodings_to_try = some (i, e) →
      ∃ pre suf, encodings_to_try = pre ++ e :: suf ∧
        (∀ e' ∈ pre, tryEncoding d e' = none) ∧ tryEncoding d e = some i) :=
  ⟨detect_header_none_iff d encodings_to_try,
   fun i e h => detect_header_some_spec d encodings_to_try i e h⟩

/-- Witness for C4: a buffer that only gbk can decode is attributed to
gbk with the header at row 0, the earlier candidate utf-8 failing. -/
theorem C4_encoding_priority_witness :
    ∃ pre suf, encodings_to_try = pre ++ "gbk" :: suf ∧
      (∀ e' ∈ pre,
        tryEncoding (fun e => if e = "gbk" then some [["交易时间"]] else none) e' = none) ∧
      tryEncoding (fun e => if e = "gbk" then some [["交易时间"]] else none) "gbk" = some 0 :=
  (C4_encoding_priority (fun e => if e = "gbk" then some [["交易时间"]] else none)).2
    0 "gbk" (by decide)

/-! ### C3: the mandatory-field drop rule -/

/-- C3: the mandatory-drop scenario evaluated on the alipay normalizer.
The claim expects one retained record and a dropped count of 1, but the
code retains both rows and drops none: pandas reads the empty
transaction_id field as NaN, `astype(str)` turns that NaN into the
literal string "nan", and the subsequent `dropna` therefore never drops
on the id column — even though the comment on the very dropna line says
it removes rows whose id is empty. -/
theorem C3_mandatory_drop_divergence :
    (alipayNormalize [("T1", "100"), ("", "50")]).1 = [("T1", 100), ("nan", 50)] ∧
    (alipayNormalize [("T1", "100"), ("", "50")]).2 = 0 := by
  decide

/-! ### C7: amount coercion -/

/-- C7 counterexample to the claim as stated: the alipay normalization
path strips only the grouping separator (line 68 replaces just commas),
so the amount text "¥1,234.50" fails to parse there and the row is
dropped instead of normalizing to 1234.50. -/
theorem C7_currency_glyph_counterexample :
    alipayAmount (some "¥1,234.50") = none := by
  decide

/-- C7 amended: the WeChat normalization path strips the currency glyph
and grouping separators, so "¥1,234.50" coerces to 1234.50 (and the row
is retained) while "abc" is unparsable (NaN, row dropped); the alipay
path strips only grouping separators, so there "1,234.50" coerces to
1234.50 while both "abc" and "¥1,234.50" are dropped. -/
theorem C7_amount_coercion :
    wxAmount (some "¥1,234.50") = some (1234.5 : ℚ) ∧
    wxAmount (some "abc") = none ∧
    alipayAmount (some "1,234.50") = some (1234.5 : ℚ) ∧
    alipayAmount (some "abc") = none := by
  refine ⟨?_, by decide, ?_, by decide⟩
  · simp +decide [wxAmount, parseDecimal, parseUnsigned, pyStrip, pyStripL, pyReplaceChar,
      replaceCharL, astypeStr, natOfDigits]
    norm_num
  · simp +decide [alipayAmount, parseDecimal, parseUnsigned, pyStrip, pyStripL, pyReplaceChar,
      replaceCharL, astypeStr, natOfDigits]
    norm_num

/-! ### C9: text-field hygiene of the emitted records -/

theorem dropWhile_eq_self_of_head (p : Char → Bool) (l : List Char)
    (h : ∀ c, l.head? = some c → p c = false) : l.dropWhile p = l := by
  cases l with
  | nil => rfl
  | cons c t => simp [List.dropWhile_cons, h c rfl]

theorem getLast?_dropWhile_of_ne_nil (p : Char → Bool) :
    ∀ l : List Char, l.dropWhile p ≠ [] → (l.dropWhile p).getLast? = l.getLast?
  | [], h => absurd rfl h
  | c :: t, h => by
    by_cases hp : p c
    · have hdw : (c :: t).dropWhile p = t.dropWhile p := by simp [List.dropWhile_cons, hp]
      rw [hdw] at h ⊢
      have ht : t ≠ [] := by
        intro hc
        rw [hc] at h
        exact h rfl
      rw [getLast?_dropWhile_of_ne_nil p t h, List.getLast?_cons]
      cases hl : t.getLast? with
      | none => exact absurd (List.getLast?_eq_none_iff.mp hl) ht
      | some a => rfl
    · simp [List.dropWhile_cons, hp]

theorem head?_pyStripL_not_ws (l : List Char) (c : Char)
    (h : (pyStripL l).head? = some c) : c.isWhitespace = false := by
  unfold pyStripL at h
  have := List.head?_dropWhile_not Char.isWhitespace ((l.reverse.dropWhile Char.isWhitespace).reverse)
  rw [h] at this
  exact this

theorem getLast?_pyStripL_not_ws (l : List Char) (c : Char)
    (h : (pyStripL l).getLast? = some c) : c.isWhitespace = false := by
  unfold pyStripL at h
  have hne : (l.reverse.dropWhile Char.isWhitespace).reverse.dropWhile Char.isWhitespace ≠ [] := by
    intro hc
    rw [hc] at h
    cases h
  rw [getLast?_dropWhile_of_ne_nil _ _ hne, List.getLast?_reverse] at h
  have := List.head?_dropWhile_not Char.isWhitespace l.reverse
  rw [h] at this
  exact this

theorem pyStripL_idem (l : List Char) : pyStripL (pyStripL l) = pyStripL l := by
  have h1 : (pyStripL l).reverse.dropWhile Char.isWhitespace = (pyStripL l).reverse := by
    apply dropWhile_eq_self_of_head
    intro c hc
    rw [List.head?_reverse] at hc
    exact getLast?_pyStripL_not_ws l c hc
  show ((pyStripL l).reverse.dropWhile Char.isWhitespace).reverse.dropWhile Char.isWhitespace
      = pyStripL l
  rw [h1, List.reverse_reverse]
  apply dropWhile_eq_self_of_head
  intro c hc
  exact head?_pyStripL_not_ws l c hc

theorem pyStrip_cleanSql (v : Option String) : pyStrip (cleanSql v) = cleanSql v := by
  cases v with
  | none => decide
  | some s =>
    show pyStrip (pyStrip (pyReplaceChar s squote "''")) = pyStrip (pyReplaceChar s squote "''")
    unfold pyStrip
    rw [String.ext_iff]
    show pyStripL (pyStripL (pyReplaceChar s squote "''").data) =
      pyStripL (pyReplaceChar s squote "''").data
    exact pyStripL_idem _

theorem count_dropWhile_not (p : Char → Bool) (c : Char) (hc : p c = false) :
    ∀ l : List Char, (l.dropWhile p).count c = l.count c
  | [] => rfl
  | a :: t => by
    by_cases hp : p a
    · have hne : a ≠ c := by
        intro h
        rw [h, hc] at hp
        cases hp
      rw [List.dropWhile_cons_of_pos hp, count_dropWhile_not p c hc t,
        List.count_cons_of_ne (Ne.symm hne)]
    · simp [List.dropWhile_cons, hp]

theorem count_pyStripL (c : Char) (hc : c.isWhitespace = false) (l : List Char) :
    (pyStripL l).count c = l.count c := by
  unfold pyStripL
  rw [count_dropWhile_not _ _ hc, List.count_reverse, count_dropWhile_not _ _ hc,
    List.count_reverse]

theorem count_double_squote (l : List Char) :
    (replaceCharL l squote [squote, squote]).count squote = 2 * l.count squote := by
  unfold replaceCharL
  induction l with
  | nil => rfl
  | cons c t ih =>
    rw [List.flatMap_cons, List.count_append, ih]
    by_cases hcq : c = squote
    · subst hcq
      rw [if_pos rfl]
      have h2 : List.count squote [squote, squote] = 2 := by decide
      have h3 : List.count squote (squote :: t) = List.count squote t + 1 :=
        List.count_cons_self squote t
      rw [h2, h3]
      omega
    · rw [if_neg hcq]
      have h1 : List.count squote [c] = 0 := by
        rw [List.count_singleton]
        simp [hcq]
      have h3 : List.count squote (c :: t) = List.count squote t :=
        List.count_cons_of_ne (fun h => hcq h.symm) t
      rw [h1, h3]
      omega

theorem replaceChar_remove (l : List Char) :
    replaceCharL l '\n' [] = l.filter (fun c => c ≠ '\n') := by
  unfold replaceCharL
  induction l with
  | nil => rfl
  | cons c t ih =>
    rw [List.flatMap_cons, ih, List.filter_cons]
    by_cases hc : c = '\n'
    · subst hc
      simp
    · simp [hc]

theorem replaceChar_space (l : List Char) :
    replaceCharL l '\n' [' '] = l.map (fun c => if c = '\n' then ' ' else c) := by
  unfold replaceCharL
  induction l with
  | nil => rfl
  | cons c t ih =>
    rw [List.flatMap_cons, ih, List.map_cons]
    by_cases hc : c = '\n'
    · subst hc
      simp
    · simp [hc]

theorem replaceChar_of_not_mem (old : Char) (new : List Char) :
    ∀ l : List Char, old ∉ l → replaceCharL l old new = l := by
  intro l
  unfold replaceCharL
  induction l with
  | nil => intro _; rfl
  | cons c t ih =>
    intro h
    rw [List.flatMap_cons,
      if_neg (by intro hc; subst hc; exact h (List.mem_cons_self c t)),
      ih (fun hm => h (List.mem_cons_of_mem c hm)), List.singleton_append]

/-- C9 counterexample to the claim as stated: in the PDF-conversion path
a line break embedded in a non-time cell is removed outright (replaced by
the empty string, line 52), not replaced by a single space: cell "a\nb"
cleans to "ab", not "a b". -/
theorem C9_newline_counterexample :
    convCleanCell 2 (some "a\nb") = "ab" ∧ "ab" ≠ "a b" := by
  decide

/-- C9 amended: in the PDF-conversion path, line breaks in the time cell
(index 1) each become one space while line breaks in every other cell are
removed with no replacement and no trimming occurs; in the alipay SQL
emission every embedded single quote of a text field is doubled, the
emitted text carries no surrounding whitespace, and the amount occupies
the single numeric (unquoted) slot of the VALUES tuple. -/
theorem C9_text_field_hygiene :
    (∀ s : String, convCleanCell 1 (some s) =
      ⟨s.data.map (fun c => if c = '\n' then ' ' else c)⟩) ∧
    (∀ (i : ℕ) (s : String), i ≠ 1 → convCleanCell i (some s) =
      ⟨s.data.filter (fun c => c ≠ '\n')⟩) ∧
    (∀ s : String, (cleanSql (some s)).data.count squote = 2 * s.data.count squote) ∧
    (∀ v : Option String, pyStrip (cleanSql v) = cleanSql v) ∧
    (∀ r : AlipayRecord, (emitAlipayValues r).getD 6 (SqlLit.quoted "") = SqlLit.numeric r.amount ∧
      ∀ i, i < 12 → i ≠ 6 → ∃ t, (emitAlipayValues r).getD i (SqlLit.quoted "") = SqlLit.quoted t) := by
  refine ⟨?_, ?_, ?_, pyStrip_cleanSql, ?_⟩
  · intro s
    show pyReplaceChar (pyReplaceChar s '\n' " ") '\n' "" = _
    unfold pyReplaceChar
    rw [String.ext_iff]
    show replaceCharL (replaceCharL s.data '\n' " ".data) '\n' "".data = _
    have hsp : " ".data = [' '] := rfl
    have hem : "".data = ([] : List Char) := rfl
    rw [hsp, hem, replaceChar_space]
    apply replaceChar_of_not_mem
    intro hmem
    obtain ⟨c, _, hc⟩ := List.mem_map.mp hmem
    by_cases h : c = '\n' <;> simp [h] at hc
  · intro i s hi
    show (if i = 1 then _ else pyReplaceChar s '\n' "") = _
    rw [if_neg hi]
    unfold pyReplaceChar
    rw [String.ext_iff]
    show replaceCharL s.data '\n' "".data = _
    have hem : "".data = ([] : List Char) := rfl
    rw [hem, replaceChar_remove]
  · intro s
    show (pyStrip (pyReplaceChar s squote "''")).data.count squote = _
    have hq : ("''").data = [squote, squote] := by decide
    unfold pyStrip pyReplaceChar
    rw [hq]
    show (pyStripL (replaceCharL s.data squote [squote, squote])).count squote = _
    rw [count_pyStripL squote (by decide), count_double_squote]
  · intro r
    refine ⟨rfl, ?_⟩
    intro i h12 h6
    interval_cases i <;> first
      | exact absurd rfl h6
      | exact ⟨_, rfl⟩

/-- Witness for C9: the non-time-cell clause applied at index 0 to a
cell with an embedded line break. -/
theorem C9_text_field_hygiene_witness :
    convCleanCell 0 (some "a\nb") = ⟨"a\nb".data.filter (fun c => c ≠ '\n')⟩ :=
  C9_text_field_hygiene.2.1 0 "a\nb" (by decide)

/-- Witness for C10: an empty extraction flattens to no rows and the
conversion fails. -/
theorem C10_minimum_row_count_witness : convertCore [] = none :=
  (C10_minimum_row_count []).mpr (by decide)
